import Mathlib

/-!
Verification of the moltcook.io core: the secret codec (`getEncryptionKey`,
`encrypt`, `decrypt`, `generateWalletKeypair`, `isValidSolanaAddress`) and the
activity aggregator (`DatabaseStorage.getCombinedActivity`), shallowly embedded
from the TypeScript source.

Modelling conventions:
- JavaScript strings handled character-wise by the codec are `List Char`;
  record fields that are only compared or copied are Lean `String`.
- Byte sequences (`Buffer`, key material) are `List Nat` with every element
  `< 256` where it matters.
- The external crypto primitives (the SHA-256 hash, the AES-256-GCM keystream
  and authentication tag of Node's `crypto`, and the ed25519 keypair of
  `@solana/web3.js`) are parameters of the definitions: the repository's code
  is generic in them, and every theorem quantifies over them.
- JavaScript truthiness (`!key`, `x || d`, `log.botId ? _ : _`) is modelled
  explicitly: empty strings and the number 0 are falsy.
-/

namespace Moltcook

/-- Errors the codec can raise, named after the spec's taxonomy.
`formatError` is `new Error("Invalid encrypted text format")`,
`authenticationError` is the GCM tag-verification failure thrown by
`decipher.final()`, `configurationError` is
`new Error("SESSION_SECRET is required in production")`. -/
inductive CryptoError where
  | formatError
  | authenticationError
  | configurationError
deriving DecidableEq, Repr

/-- The process environment read by the codec: `process.env.SESSION_SECRET`
(absent = `none`) and `process.env.NODE_ENV`. -/
structure Env where
  sessionSecret : Option String
  nodeEnv : String
deriving DecidableEq, Repr

/-- `getEncryptionKey` from the source: `if (!key)` is JavaScript truthiness,
so an absent and an empty `SESSION_SECRET` take the same branch; in
production mode that branch throws, otherwise it hashes the fixed string
`"moltcook-dev-only-key"`. `hash` stands for Node's
`createHash("sha256").update(s).digest()`. -/
def getEncryptionKey (hash : String → Nat) (env : Env) : Except CryptoError Nat :=
  let fallbackOrFail : Except CryptoError Nat :=
    if env.nodeEnv = "production" then
      Except.error CryptoError.configurationError
    else
      Except.ok (hash "moltcook-dev-only-key")
  match env.sessionSecret with
  | none => fallbackOrFail
  | some k => if k = "" then fallbackOrFail else Except.ok (hash k)

/-- The sixteen lowercase hex digit characters. -/
def hexDigitChars : List Char := "0123456789abcdef".data

/-- Hex character for a digit value (`Buffer.toString("hex")` is lowercase). -/
def hexDigit (n : Nat) : Char := hexDigitChars.getD n '0'

/-- Numeric value of a hex character, `none` for a non-hex character. -/
def hexDigitVal (c : Char) : Option Nat :=
  hexDigitChars.indexOf? c.toLower

/-- `buf.toString("hex")`: two lowercase hex characters per byte. -/
def bytesToHex : List Nat → List Char
  | [] => []
  | b :: bs => hexDigit (b / 16) :: hexDigit (b % 16) :: bytesToHex bs

/-- `Buffer.from(s, "hex")`: consume hex-digit pairs, stopping at the first
character pair that is not two hex digits (Node's lenient behaviour, which
also drops a trailing odd character). -/
def hexToBytes : List Char → List Nat
  | c1 :: c2 :: rest =>
    match hexDigitVal c1, hexDigitVal c2 with
    | some hi, some lo => (hi * 16 + lo) :: hexToBytes rest
    | _, _ => []
  | _ => []

/-- `encryptedText.split(":")` on a character-list string. -/
def splitOnColon : List Char → List (List Char)
  | [] => [[]]
  | c :: rest =>
    if c = ':' then
      [] :: splitOnColon rest
    else
      match splitOnColon rest with
      | [] => [[c]]
      | h :: t => (c :: h) :: t

/-- GCM is a stream cipher: byte `i` of the message is XORed with byte `i` of
the keystream derived from key and IV. `ks` stands for that keystream. -/
def xorKS (ks : Nat → List Nat → Nat → Nat) (key : Nat) (iv : List Nat) :
    Nat → List Nat → List Nat
  | _, [] => []
  | i, b :: bs => (b ^^^ (ks key iv i) % 256) :: xorKS ks key iv (i + 1) bs

/-- Body of `encrypt` after key derivation: XOR-encrypt under the GCM
keystream `ks`, compute the authentication tag `mac` over the ciphertext
(reduced to bytes), and join `iv:authTag:ciphertext` hex-encoded. -/
def encryptWithKey (ks : Nat → List Nat → Nat → Nat)
    (mac : Nat → List Nat → List Nat → List Nat) (key : Nat)
    (iv : List Nat) (text : List Nat) : List Char :=
  bytesToHex iv ++ (':' ::
    (bytesToHex ((mac key iv (xorKS ks key iv 0 text)).map (· % 256)) ++ (':' ::
      bytesToHex (xorKS ks key iv 0 text))))

/-- `encrypt` from the source: derive the key, then build the blob. The fresh
random IV of `randomBytes(16)` is a parameter. -/
def encrypt (hash : String → Nat) (ks : Nat → List Nat → Nat → Nat)
    (mac : Nat → List Nat → List Nat → List Nat) (env : Env)
    (iv : List Nat) (text : List Nat) : Except CryptoError (List Char) :=
  match getEncryptionKey hash env with
  | Except.error e => Except.error e
  | Except.ok key => Except.ok (encryptWithKey ks mac key iv text)

/-- Body of `decrypt` after key derivation: split on `":"`, fail with
`formatError` unless there are exactly 3 segments, then verify the
authentication tag before releasing any plaintext (`decipher.final()`
throws on mismatch). -/
def decryptWithKey (ks : Nat → List Nat → Nat → Nat)
    (mac : Nat → List Nat → List Nat → List Nat) (key : Nat)
    (s : List Char) : Except CryptoError (List Nat) :=
  if (splitOnColon s).length ≠ 3 then Except.error CryptoError.formatError
  else
    if hexToBytes ((splitOnColon s).getD 1 []) =
        (mac key (hexToBytes ((splitOnColon s).getD 0 []))
          (hexToBytes ((splitOnColon s).getD 2 []))).map (· % 256) then
      Except.ok (xorKS ks key (hexToBytes ((splitOnColon s).getD 0 [])) 0
        (hexToBytes ((splitOnColon s).getD 2 [])))
    else
      Except.error CryptoError.authenticationError

/-- `decrypt` from the source: derive the key, then parse and verify. -/
def decrypt (hash : String → Nat) (ks : Nat → List Nat → Nat → Nat)
    (mac : Nat → List Nat → List Nat → List Nat) (env : Env)
    (s : List Char) : Except CryptoError (List Nat) :=
  match getEncryptionKey hash env with
  | Except.error e => Except.error e
  | Except.ok key => decryptWithKey ks mac key s

/-! ## Positional-numeral utilities, used for JavaScript decimal rendering of
record ids and for the base58 codec. `digitsLE b n` is the little-endian
digit list of `n` in base `b`, via fuel so that it is structurally recursive
and evaluates in the kernel. -/

/-- Little-endian digits with explicit fuel; `fuel ≥ n` makes it exact. -/
def digitsLEAux (b : Nat) : Nat → Nat → List Nat
  | 0, _ => []
  | _ + 1, 0 => []
  | f + 1, n + 1 => ((n + 1) % b) :: digitsLEAux b f ((n + 1) / b)

/-- Little-endian base-`b` digits of `n` (empty for `n = 0`). -/
def digitsLE (b n : Nat) : List Nat := digitsLEAux b n n

/-- Big-endian positional value of a digit list. -/
def valBE (b : Nat) (L : List Nat) : Nat := L.foldl (fun a d => a * b + d) 0

/-- JavaScript `${n}` for a number: decimal digits, most significant first
(`"0"` for zero). -/
def natToStr (n : Nat) : String :=
  ⟨if n = 0 then ['0'] else (digitsLE 10 n).reverse.map hexDigit⟩

/-! ## Activity aggregator data model (from `@shared/schema` as used by the
storage layer; only the columns the aggregator reads are modelled). -/

/-- A `botPosts` row. -/
structure BotPost where
  id : Nat
  botId : Nat
  content : Option String
  postType : String
  tweetId : Option String
  status : String
  createdAt : Option Nat
deriving DecidableEq, Repr

/-- A `trades` row. -/
structure Trade where
  id : Nat
  botId : Nat
  tradeType : String
  tokenMint : String
  tokenSymbol : String
  amountSol : String
  amountTokens : String
  txHash : Option String
  status : String
  createdAt : Option Nat
deriving DecidableEq, Repr

/-- An `auditLogs` row; `botId` and `userId` are nullable columns. -/
structure AuditLog where
  id : Nat
  botId : Option Nat
  userId : Option Nat
  action : String
  details : String
  createdAt : Option Nat
deriving DecidableEq, Repr

/-- A `bots` row restricted to the columns the aggregator selects. -/
structure Bot where
  id : Nat
  botName : String
  userId : Nat
deriving DecidableEq, Repr

/-- A `users` row restricted to the columns the aggregator selects. -/
structure User where
  id : Nat
  username : String
deriving DecidableEq, Repr

/-- A `botXAccounts` row restricted to the columns the aggregator selects. -/
structure BotXAccount where
  botId : Nat
  xProfileImageUrl : Option String
deriving DecidableEq, Repr

/-- The database tables `getCombinedActivity` reads. -/
structure Storage where
  botPosts : List BotPost
  trades : List Trade
  auditLogs : List AuditLog
  bots : List Bot
  users : List User
  botXAccounts : List BotXAccount
deriving DecidableEq, Repr

/-- The per-type `details` payload of a combined item. -/
inductive ActivityDetails where
  | tweet (content : Option String) (tweetId : Option String)
      (postType : String) (status : String)
  | trade (tokenMint : String) (tokenSymbol : String) (amountSol : String)
      (amountTokens : String) (txHash : Option String) (status : String)
      (tradeType : String)
  | log (details : String)
deriving DecidableEq, Repr

/-- The `CombinedActivityItem` interface from the source. -/
structure CombinedActivityItem where
  id : String
  type : String
  action : String
  botId : Nat
  botName : String
  ownerUsername : String
  botProfileImageUrl : Option String
  details : ActivityDetails
  createdAt : Option Nat
deriving DecidableEq, Repr

/-! ## Sorting. `items.sort((a, b) => tb - ta)` sorts descending by the
timestamp key, a missing timestamp counting as epoch 0; the database's
`orderBy(desc(createdAt)).limit(n)` fetches are modelled with the same
descending sort followed by `take`. -/

/-- Insert `x` into a list already sorted by `key` descending, keeping it
sorted. -/
def insertDescBy {α : Type} (key : α → Nat) (x : α) : List α → List α
  | [] => [x]
  | y :: ys => if key y < key x then x :: y :: ys else y :: insertDescBy key x ys

/-- Insertion sort, descending by `key`. -/
def sortDescBy {α : Type} (key : α → Nat) : List α → List α
  | [] => []
  | x :: xs => insertDescBy key x (sortDescBy key xs)

/-- Timestamp key: `a.createdAt ? new Date(a.createdAt).getTime() : 0`. -/
def itemKey (it : CombinedActivityItem) : Nat := it.createdAt.getD 0

/-- `db.select().from(botPosts).orderBy(desc(botPosts.createdAt)).limit(limit)`. -/
def recentPosts (st : Storage) (limit : Nat) : List BotPost :=
  (sortDescBy (fun p => p.createdAt.getD 0) st.botPosts).take limit

/-- `db.select().from(trades).orderBy(desc(trades.createdAt)).limit(limit)`. -/
def recentTrades (st : Storage) (limit : Nat) : List Trade :=
  (sortDescBy (fun t => t.createdAt.getD 0) st.trades).take limit

/-- `db.select().from(auditLogs).orderBy(desc(auditLogs.createdAt)).limit(limit)`. -/
def recentLogs (st : Storage) (limit : Nat) : List AuditLog :=
  (sortDescBy (fun l => l.createdAt.getD 0) st.auditLogs).take limit

/-! ## JavaScript semantics helpers. -/

/-- `s || d` on strings: the empty string is falsy. -/
def jsOrStr (s d : String) : String := if s = "" then d else s

/-- Truthiness of a nullable number: `null` and `0` are falsy. -/
def jsTruthyNat (o : Option Nat) : Option Nat :=
  match o with
  | some n => if n = 0 then none else some n
  | none => none

/-- `pfpMap[botId] || null`: a missing entry, a stored `null`, and a stored
empty string all give `null`. -/
def jsOrNullStr (o : Option (Option String)) : Option String :=
  match o with
  | some (some u) => if u = "" then none else some u
  | _ => none

/-! ## `getCombinedActivity` itself. The `Record<number, _>` maps built by
iteration are modelled as last-match lookup over the filtered query results
(a later row with the same key overwrites an earlier one). -/

/-- `Array.from(new Set([...posts.map(botId), ...trades.map(botId),
...logs.map(botId).filter(id => id !== null)]))`. Note the filter removes only
`null`, so a log's `botId = 0` is kept. -/
def allBotIds (st : Storage) (limit : Nat) : List Nat :=
  ((recentPosts st limit).map (·.botId) ++ (recentTrades st limit).map (·.botId)
    ++ (recentLogs st limit).filterMap (·.botId)).dedup

/-- `botMap[i]`: the bots query is filtered by `inArray(bots.id, allBotIds)`,
and building the record keeps the last row per id. -/
def botFind (st : Storage) (limit : Nat) (i : Nat) : Option Bot :=
  ((st.bots.filter (fun b => decide (b.id ∈ allBotIds st limit))).filter
    (fun b => decide (b.id = i))).getLast?

/-- `Array.from(new Set(Object.values(botMap).map(b => b.userId)))`. -/
def ownerUserIds (st : Storage) (limit : Nat) : List Nat :=
  (((allBotIds st limit).filterMap (fun i => botFind st limit i)).map
    (·.userId)).dedup

/-- `userMap[u]`: users filtered by `inArray(users.id, userIds)`, last row
per id wins. -/
def userFind (st : Storage) (limit : Nat) (u : Nat) : Option String :=
  (((st.users.filter (fun x => decide (x.id ∈ ownerUserIds st limit))).filter
    (fun x => decide (x.id = u))).getLast?).map (·.username)

/-- `pfpMap[i]`: x-accounts filtered by `inArray(botXAccounts.botId,
allBotIds)`, last row per bot id wins; the stored value may itself be null. -/
def pfpFind (st : Storage) (limit : Nat) (i : Nat) : Option (Option String) :=
  (((st.botXAccounts.filter (fun x => decide (x.botId ∈ allBotIds st limit))).filter
    (fun x => decide (x.botId = i))).getLast?).map (·.xProfileImageUrl)

/-- `bot ? (userMap[bot.userId] || "Unknown") : "Unknown"` and the analogous
`bot?.botName || fb` lookups, shared by the three normalizers. -/
def ownerNameOf (userFind : Nat → Option String) (bot : Option Bot) : String :=
  match bot with
  | some b =>
    match userFind b.userId with
    | some u => jsOrStr u "Unknown"
    | none => "Unknown"
  | none => "Unknown"

/-- Normalization of one post (the first `for` loop of the source). -/
def postToItem (botFind : Nat → Option Bot) (userFind : Nat → Option String)
    (pfpFind : Nat → Option (Option String)) (p : BotPost) :
    CombinedActivityItem :=
  let bot := botFind p.botId
  { id := "tweet-" ++ natToStr p.id
    type := "tweet"
    action := if p.postType = "reply" then "reply_posted" else "tweet_posted"
    botId := p.botId
    botName := match bot with
      | some b => jsOrStr b.botName "Unknown"
      | none => "Unknown"
    ownerUsername := ownerNameOf userFind bot
    botProfileImageUrl := jsOrNullStr (pfpFind p.botId)
    details := ActivityDetails.tweet (p.content.map (fun c => c.take 120))
      p.tweetId p.postType p.status
    createdAt := p.createdAt }

/-- Normalization of one trade (the second `for` loop of the source). -/
def tradeToItem (botFind : Nat → Option Bot) (userFind : Nat → Option String)
    (pfpFind : Nat → Option (Option String)) (t : Trade) :
    CombinedActivityItem :=
  let bot := botFind t.botId
  { id := "trade-" ++ natToStr t.id
    type := "trade"
    action := if t.tradeType = "buy" then "token_bought" else "token_sold"
    botId := t.botId
    botName := match bot with
      | some b => jsOrStr b.botName "Unknown"
      | none => "Unknown"
    ownerUsername := ownerNameOf userFind bot
    botProfileImageUrl := jsOrNullStr (pfpFind t.botId)
    details := ActivityDetails.trade t.tokenMint t.tokenSymbol t.amountSol
      t.amountTokens t.txHash t.status t.tradeType
    createdAt := t.createdAt }

/-- Normalization of one audit log (the third `for` loop of the source).
`log.botId ? botMap[log.botId] : null` and `log.userId ? ... : "System"` use
JavaScript truthiness, so a stored id 0 counts as absent. -/
def logToItem (botFind : Nat → Option Bot) (userFind : Nat → Option String)
    (pfpFind : Nat → Option (Option String)) (l : AuditLog) :
    CombinedActivityItem :=
  let bot := match jsTruthyNat l.botId with
    | some i => botFind i
    | none => none
  { id := "log-" ++ natToStr l.id
    type := "system"
    action := l.action
    botId := (jsTruthyNat l.botId).getD 0
    botName := match bot with
      | some b => jsOrStr b.botName "System"
      | none => "System"
    ownerUsername := match bot with
      | some b =>
        match userFind b.userId with
        | some u => jsOrStr u "Unknown"
        | none => "Unknown"
      | none =>
        match jsTruthyNat l.userId with
        | some uid =>
          match userFind uid with
          | some u => jsOrStr u "Unknown"
          | none => "Unknown"
        | none => "System"
    botProfileImageUrl := match jsTruthyNat l.botId with
      | some i => jsOrNullStr (pfpFind i)
      | none => none
    details := ActivityDetails.log l.details
    createdAt := l.createdAt }

/-- The concatenated normalized sequence (`items` in the source, before the
final sort and truncation). -/
def combinedItems (st : Storage) (limit : Nat) : List CombinedActivityItem :=
  (recentPosts st limit).map
      (postToItem (botFind st limit) (userFind st limit) (pfpFind st limit))
    ++ (recentTrades st limit).map
      (tradeToItem (botFind st limit) (userFind st limit) (pfpFind st limit))
    ++ (recentLogs st limit).map
      (logToItem (botFind st limit) (userFind st limit) (pfpFind st limit))

/-- `DatabaseStorage.getCombinedActivity`: fetch, short-circuit to `[]` when
no bot ids are referenced (`if (allBotIds.length === 0) return [];`),
normalize, sort descending by timestamp, truncate to `limit`. -/
def getCombinedActivity (st : Storage) (limit : Nat) :
    List CombinedActivityItem :=
  if allBotIds st limit = [] then []
  else (sortDescBy itemKey (combinedItems st limit)).take limit

/-! ## base58 codec and wallet key material. `bs58` (the library used by the
source) maps leading zero bytes to leading `'1'` characters and the remaining
bytes through a base-58 positional conversion; decoding rejects any character
outside the alphabet and inverts the conversion. -/

/-- The Bitcoin base58 alphabet used by `bs58`. -/
def base58Alphabet : List Char :=
  "123456789ABCDEFGHJKLMNPQRSTUVWXYZabcdefghijkmnopqrstuvwxyz".data

/-- Digit value of a base58 character, `none` if not in the alphabet. -/
def b58Index (c : Char) : Option Nat := base58Alphabet.indexOf? c

/-- Digit values of a whole string; `none` if any character is invalid. -/
def b58Digits : List Char → Option (List Nat)
  | [] => some []
  | c :: r =>
    match b58Index c, b58Digits r with
    | some d, some ds => some (d :: ds)
    | _, _ => none

/-- Character for a base58 digit value. -/
def b58Char (d : Nat) : Char := base58Alphabet.getD d '1'

/-- Number of leading zero bytes (or zero digits) of a list. -/
def countLeadingZeros : List Nat → Nat
  | [] => 0
  | b :: bs => if b = 0 then countLeadingZeros bs + 1 else 0

/-- `bs58.encode`: one `'1'` per leading zero byte, then the base-58 digits
of the big-endian value of the bytes, most significant first. -/
def base58Encode (bs : List Nat) : List Char :=
  List.replicate (countLeadingZeros bs) '1'
    ++ (digitsLE 58 (valBE 256 bs)).reverse.map b58Char

/-- `bs58.decode`: fails on any character outside the alphabet; otherwise one
zero byte per leading zero digit, then the base-256 bytes of the value. -/
def base58Decode (s : List Char) : Option (List Nat) :=
  (b58Digits s).map (fun ds =>
    List.replicate (countLeadingZeros ds) 0
      ++ (digitsLE 256 (valBE 58 ds)).reverse)

/-- `isValidSolanaAddress` from the source: decode base58, return whether the
result is exactly 32 bytes; a decode failure returns `false`. -/
def isValidSolanaAddress (s : List Char) : Bool :=
  match base58Decode s with
  | some decoded => decide (decoded.length = 32)
  | none => false

/-- An ed25519 keypair as produced by `Keypair.generate()` of
`@solana/web3.js`: a 32-byte public key and a 64-byte secret key
(the byte-length facts are hypotheses of the theorems, not baked in). -/
structure SolanaKeypair where
  publicKeyBytes : List Nat
  secretKeyBytes : List Nat
deriving DecidableEq, Repr

/-- The record returned by `generateWalletKeypair`. -/
structure WalletKeys where
  publicKey : List Char
  privateKey : List Char
deriving DecidableEq, Repr

/-- `generateWalletKeypair` from the source: base58-encode both halves of the
freshly generated keypair (`keypair.publicKey.toBase58()` and
`bs58.encode(keypair.secretKey)`). -/
def generateWalletKeypair (kp : SolanaKeypair) : WalletKeys :=
  { publicKey := base58Encode kp.publicKeyBytes
    privateKey := base58Encode kp.secretKeyBytes }

/-! ## Concrete instances of the external primitives and environments, used
by the evaluated examples. -/

/-- A concrete stand-in for the hash primitive. -/
def hash0 : String → Nat := fun s => s.length

/-- A concrete stand-in for the GCM keystream primitive. -/
def ks0 : Nat → List Nat → Nat → Nat := fun _ _ i => i + 7

/-- A concrete stand-in for the GCM tag primitive. -/
def mac0 : Nat → List Nat → List Nat → List Nat :=
  fun key iv ct => key :: iv ++ ct

/-- A development environment with a secret configured. -/
def envDev : Env := { sessionSecret := some "s3cr3t", nodeEnv := "development" }

/-- A production environment with the secret missing. -/
def envProd : Env := { sessionSecret := none, nodeEnv := "production" }

/-- A concrete IV (16 bytes, as from `randomBytes(16)`). -/
def iv0 : List Nat := List.replicate 16 1

/-- A concrete plaintext containing the delimiter byte 58 (`':'`). -/
def msg0 : List Nat := [104, 58, 105]

/-- The blob `encrypt` produces for the concrete example. -/
def blob0 : List Char := encryptWithKey ks0 mac0 (hash0 "s3cr3t") iv0 msg0

/-- A trade whose `botId` (42) matches no bot row. -/
def tr0 : Trade :=
  { id := 1, botId := 42, tradeType := "buy", tokenMint := "m",
    tokenSymbol := "S", amountSol := "1", amountTokens := "2", txHash := none,
    status := "completed", createdAt := some 5 }

/-- An audit log with `botId = null`. -/
def lg0 : AuditLog :=
  { id := 2, botId := none, userId := none, action := "boot", details := "d",
    createdAt := some 9 }

/-- A state with one dangling-bot trade and one bot-less audit log. -/
def c8State : Storage :=
  { botPosts := [], trades := [tr0], auditLogs := [lg0], bots := [],
    users := [], botXAccounts := [] }

/-- An audit log with a (dangling) bot id, so the aggregator does not
short-circuit. -/
def lg1 : AuditLog :=
  { id := 5, botId := some 1, userId := none, action := "boot", details := "d",
    createdAt := some 9 }

/-- A state whose only record is `lg1`. -/
def c2State : Storage :=
  { botPosts := [], trades := [], auditLogs := [lg1], bots := [], users := [],
    botXAccounts := [] }

/-- An audit log with `botId = null` and an acting user. -/
def lgNull : AuditLog :=
  { id := 1, botId := none, userId := some 1, action := "system_event",
    details := "d", createdAt := some 5 }

/-- A state whose only record is the bot-less audit log `lgNull`: the fetched
batches reference no bot ids at all. -/
def c1State : Storage :=
  { botPosts := [], trades := [], auditLogs := [lgNull], bots := [],
    users := [{ id := 1, username := "alice" }], botXAccounts := [] }

/-- A state with a single trade owned by an existing bot and user. -/
def c1TradeState : Storage :=
  { botPosts := [], trades := [tr0], auditLogs := [], bots := [],
    users := [], botXAccounts := [] }

/-! ## Sorting lemmas. -/

theorem insertDescBy_perm {α : Type} (key : α → Nat) (x : α) (l : List α) :
    (insertDescBy key x l).Perm (x :: l) := by
  induction l with
  | nil => exact List.Perm.refl _
  | cons y ys ih =>
    simp only [insertDescBy]
    split
    · exact List.Perm.refl _
    · exact (ih.cons y).trans (List.Perm.swap x y ys)

theorem sortDescBy_perm {α : Type} (key : α → Nat) (l : List α) :
    (sortDescBy key l).Perm l := by
  induction l with
  | nil => exact List.Perm.refl _
  | cons x xs ih =>
    exact (insertDescBy_perm key x (sortDescBy key xs)).trans (ih.cons x)

theorem insertDescBy_pairwise {α : Type} (key : α → Nat) (x : α) (l : List α)
    (h : l.Pairwise (fun a b => key b ≤ key a)) :
    (insertDescBy key x l).Pairwise (fun a b => key b ≤ key a) := by
  induction l with
  | nil => simp [insertDescBy]
  | cons y ys ih =>
    rcases List.pairwise_cons.mp h with ⟨hy, hys⟩
    simp only [insertDescBy]
    split
    · rename_i hlt
      refine List.pairwise_cons.mpr ⟨?_, h⟩
      intro z hz
      rcases List.mem_cons.mp hz with hz | hz
      · exact hz ▸ hlt.le
      · exact (hy z hz).trans hlt.le
    · rename_i hge
      refine List.pairwise_cons.mpr ⟨?_, ih hys⟩
      intro z hz
      rcases List.mem_cons.mp ((insertDescBy_perm key x ys).mem_iff.mp hz) with hz | hz
      · exact hz ▸ Nat.le_of_not_lt hge
      · exact hy z hz

theorem sortDescBy_pairwise {α : Type} (key : α → Nat) (l : List α) :
    (sortDescBy key l).Pairwise (fun a b => key b ≤ key a) := by
  induction l with
  | nil => simp [sortDescBy]
  | cons x xs ih => exact insertDescBy_pairwise key x (sortDescBy key xs) ih

/-- C3: for every limit `L` and every repository state, `getCombinedActivity`
returns at most `L` items, sorted non-increasing by creation timestamp, where
a missing (`null`) timestamp counts as epoch 0 (and therefore sorts after
every item with a positive timestamp). -/
theorem getCombinedActivity_length_le_and_sorted (st : Storage) (L : Nat) :
    (getCombinedActivity st L).length ≤ L ∧
    (getCombinedActivity st L).Pairwise
      (fun a b => b.createdAt.getD 0 ≤ a.createdAt.getD 0) := by
  constructor
  · unfold getCombinedActivity
    split
    · simp
    · simp [List.length_take_le]
  · unfold getCombinedActivity
    split
    · simp
    · exact List.Pairwise.sublist (List.take_sublist L _) (sortDescBy_pairwise itemKey _)

/-! ## Digit-list lemmas. -/

theorem digitsLEAux_congr {b : Nat} (hb : 2 ≤ b) :
    ∀ f1 f2 n, n ≤ f1 → n ≤ f2 → digitsLEAux b f1 n = digitsLEAux b f2 n := by
  intro f1
  induction f1 with
  | zero =>
    intro f2 n h1 _
    interval_cases n
    cases f2 <;> rfl
  | succ g ih =>
    intro f2 n h1 h2
    match n, f2 with
    | 0, 0 => rfl
    | 0, _ + 1 => rfl
    | m + 1, h + 1 =>
      simp only [digitsLEAux]
      have hdiv : (m + 1) / b < m + 1 :=
        Nat.div_lt_self (Nat.succ_pos m) (by omega)
      exact congrArg _ (ih h ((m + 1) / b) (by omega) (by omega))

theorem digitsLE_eq {b : Nat} (hb : 2 ≤ b) (n : Nat) :
    digitsLE b n = if n = 0 then [] else n % b :: digitsLE b (n / b) := by
  match n with
  | 0 => rfl
  | m + 1 =>
    simp only [digitsLE, digitsLEAux, if_neg (Nat.succ_ne_zero m)]
    have hdiv : (m + 1) / b < m + 1 :=
      Nat.div_lt_self (Nat.succ_pos m) (by omega)
    exact congrArg _ (digitsLEAux_congr hb m ((m + 1) / b) ((m + 1) / b)
      (by omega) (by omega))

theorem digitsLE_ne_nil {b : Nat} (hb : 2 ≤ b) {n : Nat} (hn : n ≠ 0) :
    digitsLE b n ≠ [] := by
  rw [digitsLE_eq hb, if_neg hn]
  exact List.cons_ne_nil _ _

theorem digitsLE_lt {b : Nat} (hb : 2 ≤ b) :
    ∀ n, ∀ d ∈ digitsLE b n, d < b := by
  intro n
  induction n using Nat.strong_induction_on with
  | _ n ih =>
    intro d hd
    rw [digitsLE_eq hb] at hd
    by_cases hn : n = 0
    · simp [hn] at hd
    · rw [if_neg hn] at hd
      rcases List.mem_cons.mp hd with h | h
      · exact h ▸ Nat.mod_lt n (by omega)
      · exact ih (n / b) (Nat.div_lt_self (Nat.pos_of_ne_zero hn) (by omega)) d h

theorem valBE_foldl (b : Nat) :
    ∀ (L : List Nat) (acc : Nat),
      L.foldl (fun a d => a * b + d) acc = acc * b ^ L.length + valBE b L := by
  intro L
  induction L with
  | nil => intro acc; simp [valBE]
  | cons d L ih =>
    intro acc
    simp only [List.foldl_cons, valBE, List.length_cons]
    rw [ih (acc * b + d), ih (0 * b + d)]
    ring

theorem valBE_cons (b d : Nat) (L : List Nat) :
    valBE b (d :: L) = d * b ^ L.length + valBE b L := by
  calc valBE b (d :: L)
      = List.foldl (fun a e => a * b + e) (0 * b + d) L := rfl
    _ = List.foldl (fun a e => a * b + e) d L := by
        rw [Nat.zero_mul, Nat.zero_add]
    _ = d * b ^ L.length + valBE b L := valBE_foldl b L d

theorem valBE_append_singleton (b d : Nat) (L : List Nat) :
    valBE b (L ++ [d]) = valBE b L * b + d := by
  simp only [valBE, List.foldl_append, List.foldl_cons, List.foldl_nil]

theorem valBE_digitsLE {b : Nat} (hb : 2 ≤ b) :
    ∀ n, valBE b ((digitsLE b n).reverse) = n := by
  intro n
  induction n using Nat.strong_induction_on with
  | _ n ih =>
    by_cases hn : n = 0
    · simp [hn, digitsLE, digitsLEAux, valBE]
    · rw [digitsLE_eq hb, if_neg hn]
      simp only [List.reverse_cons]
      rw [valBE_append_singleton,
        ih (n / b) (Nat.div_lt_self (Nat.pos_of_ne_zero hn) (by omega))]
      rw [Nat.mul_comm]
      exact Nat.div_add_mod n b

theorem valBE_pos {b : Nat} (hb : 1 ≤ b) {h : Nat} {t : List Nat}
    (hh : h ≠ 0) : 0 < valBE b (h :: t) := by
  rw [valBE_cons]
  have : 0 < b ^ t.length := Nat.pos_pow_of_pos _ (by omega)
  have : 1 * 1 ≤ h * b ^ t.length :=
    Nat.mul_le_mul (Nat.pos_of_ne_zero hh) this
  omega

theorem digitsLE_valBE {b : Nat} (hb : 2 ≤ b) :
    ∀ L : List Nat, (∀ x ∈ L, x < b) → L.head? ≠ some 0 →
      digitsLE b (valBE b L) = L.reverse := by
  intro L
  induction L using List.reverseRecOn with
  | nil => intro _ _; simp [digitsLE, digitsLEAux, valBE]
  | append_singleton M d ih =>
    intro hlt hhd
    rw [valBE_append_singleton]
    have hd : d < b := hlt d (by simp)
    match M with
    | [] =>
      have hd0 : d ≠ 0 := by simpa using hhd
      simp only [valBE, List.foldl_nil, Nat.zero_mul, Nat.zero_add]
      rw [digitsLE_eq hb, if_neg hd0, Nat.mod_eq_of_lt hd, Nat.div_eq_of_lt hd]
      simp [digitsLE, digitsLEAux]
    | h :: M' =>
      have hh0 : h ≠ 0 := by
        intro h0
        exact hhd (by simp [h0])
      have hpos : 0 < valBE b (h :: M') := valBE_pos (by omega) hh0
      have htot : valBE b (h :: M') * b + d ≠ 0 := by
        have : b ≤ valBE b (h :: M') * b := Nat.le_mul_of_pos_left b hpos
        omega
      rw [digitsLE_eq hb, if_neg htot]
      have hmod : (valBE b (h :: M') * b + d) % b = d := by
        rw [Nat.mul_comm (valBE b (h :: M')) b, Nat.mul_add_mod]
        exact Nat.mod_eq_of_lt hd
      have hdiv : (valBE b (h :: M') * b + d) / b = valBE b (h :: M') := by
        rw [Nat.mul_comm (valBE b (h :: M')) b,
          Nat.mul_add_div (by omega : 0 < b), Nat.div_eq_of_lt hd, Nat.add_zero]
      rw [hmod, hdiv,
        ih (fun x hx => hlt x (List.mem_append_left [d] hx)) (by simpa using hh0)]
      simp

/-! ## base58 round-trip lemmas. -/

theorem digitsLE_getLast?_ne {b : Nat} (hb : 2 ≤ b) :
    ∀ n, n ≠ 0 → (digitsLE b n).getLast? ≠ some 0 := by
  intro n
  induction n using Nat.strong_induction_on with
  | _ n ih =>
    intro hn
    rw [digitsLE_eq hb, if_neg hn]
    by_cases hq : n / b = 0
    · have hlt : n < b := (Nat.div_eq_zero_iff (by omega)).mp hq
      have : digitsLE b (n / b) = [] := by rw [hq]; rfl
      rw [this]
      simp only [List.getLast?_singleton, ne_eq, Option.some.injEq]
      rw [Nat.mod_eq_of_lt hlt]
      exact hn
    · rcases List.exists_cons_of_ne_nil (digitsLE_ne_nil hb hq) with ⟨r, rs, hr⟩
      rw [hr, List.getLast?_cons_cons]
      rw [← hr]
      exact ih (n / b) (Nat.div_lt_self (Nat.pos_of_ne_zero hn) (by omega)) hq

theorem b58Index_b58Char : ∀ d : Nat, d < 58 → b58Index (b58Char d) = some d := by
  decide

theorem b58Digits_encode (z : Nat) (ds : List Nat) (h : ∀ d ∈ ds, d < 58) :
    b58Digits (List.replicate z '1' ++ ds.map b58Char)
      = some (List.replicate z 0 ++ ds) := by
  induction z with
  | zero =>
    simp only [List.replicate, List.nil_append]
    induction ds with
    | nil => rfl
    | cons d ds ihd =>
      simp only [List.map_cons, b58Digits]
      rw [b58Index_b58Char d (h d (by simp)),
        ihd (fun x hx => h x (List.mem_cons_of_mem d hx))]
  | succ z ihz =>
    simp only [List.replicate, List.cons_append, b58Digits, List.append_eq]
    rw [ihz]
    rfl

theorem countLeadingZeros_replicate_append (z : Nat) (L : List Nat) :
    countLeadingZeros (List.replicate z 0 ++ L) = z + countLeadingZeros L := by
  induction z with
  | zero => simp [List.replicate]
  | succ z ih =>
    show (if (0 : Nat) = 0 then
        countLeadingZeros (List.replicate z 0 ++ L) + 1 else 0)
      = z + 1 + countLeadingZeros L
    rw [if_pos rfl, ih]
    omega

theorem countLeadingZeros_of_head (L : List Nat) (h : L.head? ≠ some 0) :
    countLeadingZeros L = 0 := by
  match L with
  | [] => rfl
  | x :: xs =>
    have : x ≠ 0 := by simpa using h
    simp [countLeadingZeros, this]

theorem countLeadingZeros_replicate (z : Nat) :
    countLeadingZeros (List.replicate z 0) = z := by
  have := countLeadingZeros_replicate_append z []
  simpa using this

theorem valBE_replicate_zero (b z : Nat) (L : List Nat) :
    valBE b (List.replicate z 0 ++ L) = valBE b L := by
  induction z with
  | zero => simp [List.replicate]
  | succ z ih =>
    simp only [List.replicate, List.cons_append, valBE, List.foldl_cons,
      Nat.zero_mul, Nat.zero_add] at ih ⊢
    exact ih

theorem valBE_replicate (b z : Nat) :
    valBE b (List.replicate z 0) = 0 := by
  have := valBE_replicate_zero b z []
  simpa [valBE] using this

theorem countLeadingZeros_decomp (bs : List Nat) :
    bs = List.replicate (countLeadingZeros bs) 0
        ++ bs.drop (countLeadingZeros bs)
      ∧ (bs.drop (countLeadingZeros bs)).head? ≠ some 0 := by
  induction bs with
  | nil => exact ⟨rfl, by simp⟩
  | cons b bs ih =>
    by_cases hb : b = 0
    · subst hb
      have hc : countLeadingZeros (0 :: bs) = countLeadingZeros bs + 1 := by
        simp [countLeadingZeros]
      rw [hc]
      simp only [List.replicate, List.cons_append, List.drop_succ_cons]
      exact ⟨by rw [← ih.1], ih.2⟩
    · have hc : countLeadingZeros (b :: bs) = 0 := by
        simp [countLeadingZeros, hb]
      rw [hc]
      simp [hb]

theorem base58Decode_base58Encode (bs : List Nat) (h : ∀ x ∈ bs, x < 256) :
    base58Decode (base58Encode bs) = some bs := by
  obtain ⟨hsplit, hhead⟩ := countLeadingZeros_decomp bs
  have hd58 : ∀ d ∈ (digitsLE 58 (valBE 256 bs)).reverse, d < 58 := by
    intro d hd
    exact digitsLE_lt (by omega) _ d (List.mem_reverse.mp hd)
  have hrest_lt : ∀ x ∈ bs.drop (countLeadingZeros bs), x < 256 := by
    intro x hx
    exact h x (List.drop_subset _ _ hx)
  have hval : valBE 256 bs = valBE 256 (bs.drop (countLeadingZeros bs)) := by
    conv_lhs => rw [hsplit]
    exact valBE_replicate_zero _ _ _
  unfold base58Encode base58Decode
  rw [b58Digits_encode _ _ hd58]
  simp only [Option.map_some', Option.some.injEq]
  by_cases hn : valBE 256 bs = 0
  · have hrest : bs.drop (countLeadingZeros bs) = [] := by
      cases hr : bs.drop (countLeadingZeros bs) with
      | nil => rfl
      | cons x xs =>
        exfalso
        have hx0 : x ≠ 0 := by rw [hr] at hhead; simpa using hhead
        have hp : 0 < valBE 256 (x :: xs) := valBE_pos (by omega) hx0
        rw [hr] at hval
        omega
    have hdig : digitsLE 58 (valBE 256 bs) = [] := by rw [hn]; rfl
    rw [hdig]
    simp only [List.reverse_nil, List.append_nil]
    rw [countLeadingZeros_replicate, valBE_replicate]
    have h256 : digitsLE 256 0 = [] := rfl
    rw [h256]
    simp only [List.reverse_nil, List.append_nil]
    conv_rhs => rw [hsplit]
    rw [hrest, List.append_nil]
  · have hlast : (digitsLE 58 (valBE 256 bs)).reverse.head? ≠ some 0 := by
      rw [List.head?_reverse]
      exact digitsLE_getLast?_ne (by omega) _ hn
    rw [countLeadingZeros_replicate_append, countLeadingZeros_of_head _ hlast,
      Nat.add_zero, valBE_replicate_zero,
      valBE_digitsLE (show (2 : Nat) ≤ 58 by omega)]
    rw [hval, digitsLE_valBE (show (2 : Nat) ≤ 256 by omega) _ hrest_lt hhead,
      List.reverse_reverse]
    exact hsplit.symm

/-- C9: `isValidSolanaAddress` returns `true` exactly when the input decodes
as base58 to exactly 32 bytes (so decode failures and 31- or 33-byte decodes
give `false`, and being a total function it never raises), and it accepts the
public address of every freshly generated wallet keypair, whose public key is
32 bytes of ed25519 point. -/
theorem isValidSolanaAddress_correct :
    (∀ s : List Char, isValidSolanaAddress s = true ↔
      ∃ bs, base58Decode s = some bs ∧ bs.length = 32) ∧
    (∀ kp : SolanaKeypair, kp.publicKeyBytes.length = 32 →
      (∀ x ∈ kp.publicKeyBytes, x < 256) →
      isValidSolanaAddress (generateWalletKeypair kp).publicKey = true) := by
  constructor
  · intro s
    unfold isValidSolanaAddress
    cases hdec : base58Decode s with
    | none => simp
    | some bs => simp
  · intro kp h32 hlt
    unfold generateWalletKeypair isValidSolanaAddress
    simp only
    rw [base58Decode_base58Encode kp.publicKeyBytes hlt]
    simp [h32]

/-- Witness for C9 at a concrete 32-byte public key. -/
theorem isValidSolanaAddress_correct_witness :
    (List.range 32).length = 32 ∧ (∀ x ∈ List.range 32, x < 256) ∧
    isValidSolanaAddress
      (generateWalletKeypair ⟨List.range 32, []⟩).publicKey = true :=
  ⟨by decide, by decide,
    isValidSolanaAddress_correct.2 ⟨List.range 32, []⟩ (by decide) (by decide)⟩

/-! ## Codec lemmas. -/

theorem hexDigit_ne_colon (n : Nat) : hexDigit n ≠ ':' := by
  by_cases h : n < 16
  · interval_cases n <;> decide
  · rw [hexDigit, List.getD_eq_default]
    · decide
    · have hlen : hexDigitChars.length = 16 := rfl
      omega

theorem bytesToHex_no_colon (bs : List Nat) : ':' ∉ bytesToHex bs := by
  induction bs with
  | nil => simp [bytesToHex]
  | cons b bs ih =>
    simp only [bytesToHex, List.mem_cons, not_or]
    exact ⟨fun h => hexDigit_ne_colon _ h.symm,
      fun h => hexDigit_ne_colon _ h.symm, ih⟩

theorem splitOnColon_no_colon (a : List Char) (ha : ':' ∉ a) :
    splitOnColon a = [a] := by
  induction a with
  | nil => rfl
  | cons c r ih =>
    have hc : c ≠ ':' := fun h => ha (h ▸ List.mem_cons_self c r)
    have har : ':' ∉ r := fun h => ha (List.mem_cons_of_mem c h)
    simp only [splitOnColon, if_neg hc, ih har]

theorem splitOnColon_append (a rest : List Char) (ha : ':' ∉ a) :
    splitOnColon (a ++ (':' :: rest)) = a :: splitOnColon rest := by
  induction a with
  | nil => simp [splitOnColon]
  | cons c r ih =>
    have hc : c ≠ ':' := fun h => ha (h ▸ List.mem_cons_self c r)
    have har : ':' ∉ r := fun h => ha (List.mem_cons_of_mem c h)
    simp only [List.cons_append, List.append_eq, splitOnColon, if_neg hc,
      ih har]

theorem hexDigitVal_hexDigit : ∀ d : Nat, d < 16 →
    hexDigitVal (hexDigit d) = some d := by
  decide

theorem hexToBytes_bytesToHex (bs : List Nat) (h : ∀ x ∈ bs, x < 256) :
    hexToBytes (bytesToHex bs) = bs := by
  induction bs with
  | nil => rfl
  | cons b bs ih =>
    have hb : b < 256 := h b (by simp)
    simp only [bytesToHex, hexToBytes]
    rw [hexDigitVal_hexDigit (b / 16) (by omega),
      hexDigitVal_hexDigit (b % 16) (by omega)]
    simp only
    rw [ih (fun x hx => h x (List.mem_cons_of_mem b hx))]
    congr 1
    omega

theorem xorKS_xorKS (ks : Nat → List Nat → Nat → Nat) (key : Nat)
    (iv : List Nat) : ∀ i bs, xorKS ks key iv i (xorKS ks key iv i bs) = bs := by
  intro i bs
  induction bs generalizing i with
  | nil => rfl
  | cons b bs ih =>
    simp only [xorKS, Nat.xor_cancel_right, List.cons.injEq, true_and]
    exact ih (i + 1)

theorem xorKS_lt (ks : Nat → List Nat → Nat → Nat) (key : Nat) (iv : List Nat) :
    ∀ i bs, (∀ x ∈ bs, x < 256) → ∀ y ∈ xorKS ks key iv i bs, y < 256 := by
  intro i bs
  induction bs generalizing i with
  | nil => intro _ y hy; simp [xorKS] at hy
  | cons b bs ih =>
    intro h y hy
    simp only [xorKS, List.mem_cons] at hy
    rcases hy with hy | hy
    · subst hy
      have h1 : b < 2 ^ 8 := h b (by simp)
      have h2 : ks key iv i % 256 < 2 ^ 8 := Nat.mod_lt _ (by omega)
      exact Nat.xor_lt_two_pow h1 h2
    · exact ih (i + 1) (fun x hx => h x (List.mem_cons_of_mem b hx)) y hy

theorem map_mod_lt (L : List Nat) : ∀ y ∈ L.map (· % 256), y < 256 := by
  intro y hy
  rcases List.mem_map.mp hy with ⟨x, _, hx⟩
  subst hx
  exact Nat.mod_lt _ (by omega)

theorem decryptWithKey_encryptWithKey (ks : Nat → List Nat → Nat → Nat)
    (mac : Nat → List Nat → List Nat → List Nat) (key : Nat)
    (iv text : List Nat) (hiv : ∀ x ∈ iv, x < 256)
    (htext : ∀ x ∈ text, x < 256) :
    decryptWithKey ks mac key (encryptWithKey ks mac key iv text)
      = Except.ok text := by
  have hct : ∀ x ∈ xorKS ks key iv 0 text, x < 256 :=
    xorKS_lt ks key iv 0 text htext
  unfold encryptWithKey decryptWithKey
  rw [splitOnColon_append _ _ (bytesToHex_no_colon iv),
    splitOnColon_append _ _ (bytesToHex_no_colon _),
    splitOnColon_no_colon _ (bytesToHex_no_colon _)]
  simp only [List.length_cons, List.length_nil, List.getD_cons_zero,
    List.getD_cons_succ]
  rw [if_neg (by omega)]
  rw [hexToBytes_bytesToHex iv hiv,
    hexToBytes_bytesToHex _ (map_mod_lt _),
    hexToBytes_bytesToHex _ hct]
  rw [if_pos rfl, xorKS_xorKS]

/-- C4: round-trip — with the same configured secret in effect for both
calls, `decrypt (encrypt text) = text` for every plaintext (byte sequences
of arbitrary content, including the empty one and ones containing the
`':'` delimiter byte), every IV, and every choice of the crypto
primitives. -/
theorem decrypt_encrypt (hash : String → Nat) (ks : Nat → List Nat → Nat → Nat)
    (mac : Nat → List Nat → List Nat → List Nat) (env : Env)
    (iv text : List Nat) (blob : List Char)
    (hiv : ∀ x ∈ iv, x < 256) (htext : ∀ x ∈ text, x < 256)
    (henc : encrypt hash ks mac env iv text = Except.ok blob) :
    decrypt hash ks mac env blob = Except.ok text := by
  unfold encrypt at henc
  unfold decrypt
  cases hk : getEncryptionKey hash env with
  | error e => rw [hk] at henc; exact absurd henc (by simp)
  | ok key =>
    rw [hk] at henc
    simp only [Except.ok.injEq] at henc
    subst henc
    exact decryptWithKey_encryptWithKey ks mac key iv text hiv htext

/-- Witness for C4 at a concrete secret, IV and plaintext (the plaintext
contains the delimiter byte 58 = `':'`). -/
theorem decrypt_encrypt_witness :
    encrypt hash0 ks0 mac0 envDev iv0 msg0 = Except.ok blob0 ∧
    decrypt hash0 ks0 mac0 envDev blob0 = Except.ok msg0 :=
  ⟨rfl, decrypt_encrypt hash0 ks0 mac0 envDev iv0 msg0 blob0
    (by decide) (by decide) rfl⟩

theorem decryptWithKey_auth (ks : Nat → List Nat → Nat → Nat)
    (mac : Nat → List Nat → List Nat → List Nat) (key : Nat)
    (a b c : List Char) (ha : ':' ∉ a) (hb : ':' ∉ b) (hc : ':' ∉ c)
    (hmac : hexToBytes b ≠
      (mac key (hexToBytes a) (hexToBytes c)).map (· % 256)) :
    decryptWithKey ks mac key (a ++ (':' :: (b ++ (':' :: c))))
      = Except.error CryptoError.authenticationError := by
  unfold decryptWithKey
  rw [splitOnColon_append _ _ ha, splitOnColon_append _ _ hb,
    splitOnColon_no_colon _ hc]
  simp only [List.length_cons, List.length_nil, List.getD_cons_zero,
    List.getD_cons_succ]
  rw [if_neg (by omega), if_neg hmac]

/-- C5: for every well-formed 3-segment blob whose tag does not verify under
the derived key, `decrypt` fails with `authenticationError` (so it never
returns a plaintext). -/
theorem decrypt_auth_reject (hash : String → Nat)
    (ks : Nat → List Nat → Nat → Nat)
    (mac : Nat → List Nat → List Nat → List Nat) (env : Env) (key : Nat)
    (a b c : List Char) (hk : getEncryptionKey hash env = Except.ok key)
    (ha : ':' ∉ a) (hb : ':' ∉ b) (hc : ':' ∉ c)
    (hmac : hexToBytes b ≠
      (mac key (hexToBytes a) (hexToBytes c)).map (· % 256)) :
    decrypt hash ks mac env (a ++ (':' :: (b ++ (':' :: c))))
      = Except.error CryptoError.authenticationError := by
  unfold decrypt
  rw [hk]
  exact decryptWithKey_auth ks mac key a b c ha hb hc hmac

/-- Witness for C5: a 3-segment blob with a wrong tag is rejected. -/
theorem decrypt_auth_reject_witness :
    decrypt hash0 ks0 mac0 envDev
      (['0', '0'] ++ (':' :: (['f', 'f'] ++ (':' :: ['0', '0']))))
      = Except.error CryptoError.authenticationError :=
  decrypt_auth_reject hash0 ks0 mac0 envDev (hash0 "s3cr3t")
    ['0', '0'] ['f', 'f'] ['0', '0'] rfl
    (by decide) (by decide) (by decide) (by decide)

/-- C6: when key derivation succeeds, `decrypt` fails with `formatError`
exactly when splitting the input on `':'` does not give 3 segments (in
particular 2- and 4-segment blobs are rejected with `formatError`, and a
3-segment blob never raises `formatError`). -/
theorem decrypt_formatError_iff (hash : String → Nat)
    (ks : Nat → List Nat → Nat → Nat)
    (mac : Nat → List Nat → List Nat → List Nat) (env : Env) (key : Nat)
    (s : List Char) (hk : getEncryptionKey hash env = Except.ok key) :
    decrypt hash ks mac env s = Except.error CryptoError.formatError ↔
      (splitOnColon s).length ≠ 3 := by
  unfold decrypt
  rw [hk]
  show decryptWithKey ks mac key s = Except.error CryptoError.formatError ↔ _
  unfold decryptWithKey
  by_cases hlen : (splitOnColon s).length = 3
  · rw [if_neg (not_not_intro hlen)]
    constructor
    · intro h
      split at h <;> simp at h
    · intro h
      exact absurd hlen h
  · rw [if_pos hlen]
    simp [hlen]

/-- Witness for C6: a 2-segment and a 4-segment blob both give
`formatError`. -/
theorem decrypt_formatError_iff_witness :
    ((decrypt hash0 ks0 mac0 envDev "aa:bb".data
        = Except.error CryptoError.formatError ↔
      (splitOnColon "aa:bb".data).length ≠ 3) ∧
     (decrypt hash0 ks0 mac0 envDev "a:b:c:d".data
        = Except.error CryptoError.formatError ↔
      (splitOnColon "a:b:c:d".data).length ≠ 3)) ∧
    decrypt hash0 ks0 mac0 envDev "aa:bb".data
      = Except.error CryptoError.formatError ∧
    decrypt hash0 ks0 mac0 envDev "a:b:c:d".data
      = Except.error CryptoError.formatError :=
  ⟨⟨decrypt_formatError_iff hash0 ks0 mac0 envDev (hash0 "s3cr3t") _ rfl,
    decrypt_formatError_iff hash0 ks0 mac0 envDev (hash0 "s3cr3t") _ rfl⟩,
   rfl, rfl⟩

/-- C7: key derivation is a deterministic function of the configured secret —
with a (nonempty) secret configured it returns the hash of that secret; with
the secret absent in production mode it (and hence `encrypt` and `decrypt`)
fails with `configurationError`; with the secret absent outside production it
returns the fixed development-only key, the hash of
`"moltcook-dev-only-key"`. -/
theorem getEncryptionKey_spec (hash : String → Nat) (env : Env) :
    (∀ sec, env.sessionSecret = some sec → sec ≠ "" →
      getEncryptionKey hash env = Except.ok (hash sec)) ∧
    ((env.sessionSecret = none ∨ env.sessionSecret = some "") →
      env.nodeEnv = "production" →
      getEncryptionKey hash env = Except.error CryptoError.configurationError ∧
      (∀ ks mac iv text, encrypt hash ks mac env iv text
        = Except.error CryptoError.configurationError) ∧
      (∀ ks mac s, decrypt hash ks mac env s
        = Except.error CryptoError.configurationError)) ∧
    ((env.sessionSecret = none ∨ env.sessionSecret = some "") →
      env.nodeEnv ≠ "production" →
      getEncryptionKey hash env = Except.ok (hash "moltcook-dev-only-key")) := by
  refine ⟨?_, ?_, ?_⟩
  · intro sec hs hne
    unfold getEncryptionKey
    rw [hs]
    simp [hne]
  · intro habs hprod
    have hkey : getEncryptionKey hash env
        = Except.error CryptoError.configurationError := by
      unfold getEncryptionKey
      rcases habs with h | h <;> rw [h] <;> simp [hprod]
    refine ⟨hkey, ?_, ?_⟩
    · intro ks mac iv text
      unfold encrypt
      rw [hkey]
    · intro ks mac s
      unfold decrypt
      rw [hkey]
  · intro habs hdev
    unfold getEncryptionKey
    rcases habs with h | h <;> rw [h] <;> simp [hdev]

/-- Witness for C7 at concrete environments. -/
theorem getEncryptionKey_spec_witness :
    getEncryptionKey hash0 envDev = Except.ok (hash0 "s3cr3t") ∧
    getEncryptionKey hash0 envProd
      = Except.error CryptoError.configurationError ∧
    getEncryptionKey hash0 { sessionSecret := none, nodeEnv := "test" }
      = Except.ok (hash0 "moltcook-dev-only-key") :=
  ⟨(getEncryptionKey_spec hash0 envDev).1 "s3cr3t" rfl (by decide),
   ((getEncryptionKey_spec hash0 envProd).2.1 (Or.inl rfl) rfl).1,
   (getEncryptionKey_spec hash0 ⟨none, "test"⟩).2.2 (Or.inl rfl) (by decide)⟩

/-- C10: an empty-string `SESSION_SECRET` is treated exactly like an absent
one — key derivation gives the same result as with the secret removed: in
production it (and `encrypt` and `decrypt`) throws the missing-secret error,
otherwise it silently uses the fixed development fallback key instead of
hashing the empty string. -/
theorem getEncryptionKey_empty_secret (hash : String → Nat) (env : Env)
    (h : env.sessionSecret = some "") :
    getEncryptionKey hash env
        = getEncryptionKey hash { env with sessionSecret := none } ∧
    (env.nodeEnv = "production" →
      getEncryptionKey hash env = Except.error CryptoError.configurationError ∧
      (∀ ks mac iv text, encrypt hash ks mac env iv text
        = Except.error CryptoError.configurationError) ∧
      (∀ ks mac s, decrypt hash ks mac env s
        = Except.error CryptoError.configurationError)) ∧
    (env.nodeEnv ≠ "production" →
      getEncryptionKey hash env = Except.ok (hash "moltcook-dev-only-key")) := by
  refine ⟨?_, ?_, ?_⟩
  · unfold getEncryptionKey
    rw [h]
    simp
  · intro hprod
    have hkey : getEncryptionKey hash env
        = Except.error CryptoError.configurationError := by
      unfold getEncryptionKey
      rw [h]
      simp [hprod]
    refine ⟨hkey, ?_, ?_⟩
    · intro ks mac iv text
      unfold encrypt
      rw [hkey]
    · intro ks mac s
      unfold decrypt
      rw [hkey]
  · intro hdev
    unfold getEncryptionKey
    rw [h]
    simp [hdev]

/-- Witness for C10 at concrete environments with an empty secret. -/
theorem getEncryptionKey_empty_secret_witness :
    getEncryptionKey hash0 { sessionSecret := some "", nodeEnv := "production" }
      = Except.error CryptoError.configurationError ∧
    getEncryptionKey hash0 { sessionSecret := some "", nodeEnv := "development" }
      = Except.ok (hash0 "moltcook-dev-only-key") :=
  ⟨((getEncryptionKey_empty_secret hash0 ⟨some "", "production"⟩ rfl).2.1
      rfl).1,
   (getEncryptionKey_empty_secret hash0 ⟨some "", "development"⟩ rfl).2.2
      (by decide)⟩

/-! ## Aggregator fallback lemmas. -/

theorem botFind_eq_none (st : Storage) (L : Nat) (i : Nat)
    (h : ∀ b ∈ st.bots, b.id ≠ i) : botFind st L i = none := by
  unfold botFind
  have hnil : ((st.bots.filter
      (fun b => decide (b.id ∈ allBotIds st L))).filter
      (fun b => decide (b.id = i))) = [] := by
    rw [List.filter_eq_nil_iff]
    intro b hb
    have hmem : b ∈ st.bots := (List.mem_filter.mp hb).1
    simp [h b hmem]
  rw [hnil]
  rfl

/-- C8: a trade whose `botId` matches no bot still yields an item — present in
the concatenated normalized sequence — with `botName = "Unknown"` and
`ownerUsername = "Unknown"` (the functions are total, so nothing is raised);
and an audit log with `botId = null` yields an item with
`botName = "System"`. -/
theorem combined_unknown_fallbacks (st : Storage) (L : Nat) :
    (∀ t ∈ recentTrades st L, (∀ b ∈ st.bots, b.id ≠ t.botId) →
      tradeToItem (botFind st L) (userFind st L) (pfpFind st L) t
          ∈ combinedItems st L ∧
      (tradeToItem (botFind st L) (userFind st L) (pfpFind st L) t).botName
          = "Unknown" ∧
      (tradeToItem (botFind st L) (userFind st L) (pfpFind st L) t).ownerUsername
          = "Unknown") ∧
    (∀ l ∈ recentLogs st L, l.botId = none →
      logToItem (botFind st L) (userFind st L) (pfpFind st L) l
          ∈ combinedItems st L ∧
      (logToItem (botFind st L) (userFind st L) (pfpFind st L) l).botName
          = "System") := by
  constructor
  · intro t ht hnone
    have hfind : botFind st L t.botId = none := botFind_eq_none st L t.botId hnone
    refine ⟨?_, ?_, ?_⟩
    · unfold combinedItems
      exact List.mem_append_left _
        (List.mem_append_right _ (List.mem_map_of_mem _ ht))
    · simp [tradeToItem, hfind]
    · simp [tradeToItem, ownerNameOf, hfind]
  · intro l hl hbn
    refine ⟨?_, ?_⟩
    · unfold combinedItems
      exact List.mem_append_right _ (List.mem_map_of_mem _ hl)
    · simp [logToItem, hbn, jsTruthyNat]

/-- Witness for C8 on a concrete state: one trade with a dangling bot id and
one bot-less audit log. -/
theorem combined_unknown_fallbacks_witness :
    tr0 ∈ recentTrades c8State 10 ∧ (∀ b ∈ c8State.bots, b.id ≠ tr0.botId) ∧
    lg0 ∈ recentLogs c8State 10 ∧ lg0.botId = none ∧
    ((tradeToItem (botFind c8State 10) (userFind c8State 10)
        (pfpFind c8State 10) tr0).botName = "Unknown" ∧
      (tradeToItem (botFind c8State 10) (userFind c8State 10)
        (pfpFind c8State 10) tr0).ownerUsername = "Unknown") ∧
    (logToItem (botFind c8State 10) (userFind c8State 10)
        (pfpFind c8State 10) lg0).botName = "System" :=
  ⟨by decide, by decide, by decide, rfl,
   ⟨((combined_unknown_fallbacks c8State 10).1 tr0 (by decide) (by decide)).2.1,
    ((combined_unknown_fallbacks c8State 10).1 tr0 (by decide) (by decide)).2.2⟩,
   ((combined_unknown_fallbacks c8State 10).2 lg0 (by decide) rfl).2⟩

/-- C1 counterexample: when the fetched batches reference no bot ids at all —
here a single audit log with `botId = null` — `getCombinedActivity` returns
the empty list even though one record was fetched, so that record is *not*
represented by any `CombinedActivityItem` (the claim asserts it would be). -/
theorem getCombinedActivity_drops_botless_logs :
    getCombinedActivity c1State 10 = [] ∧
    recentLogs c1State 10 = [lgNull] ∧
    allBotIds c1State 10 = [] := by decide

/-- C1 (amended): provided at least one fetched record references a bot id,
`getCombinedActivity` is exactly the sorted-and-truncated concatenated
normalized sequence, which contains one item per fetched post, trade and
audit-log record (missing bot/owner/avatar lookups degrade to placeholder
strings inside the normalizers rather than causing any record to be
omitted); when no bot ids are referenced the function instead
short-circuits to the empty list. -/
theorem getCombinedActivity_complete (st : Storage) (L : Nat)
    (h : allBotIds st L ≠ []) :
    getCombinedActivity st L = (sortDescBy itemKey (combinedItems st L)).take L ∧
    (combinedItems st L).length
      = (recentPosts st L).length + (recentTrades st L).length
        + (recentLogs st L).length ∧
    (∀ p ∈ recentPosts st L,
      postToItem (botFind st L) (userFind st L) (pfpFind st L) p
        ∈ combinedItems st L) ∧
    (∀ t ∈ recentTrades st L,
      tradeToItem (botFind st L) (userFind st L) (pfpFind st L) t
        ∈ combinedItems st L) ∧
    (∀ l ∈ recentLogs st L,
      logToItem (botFind st L) (userFind st L) (pfpFind st L) l
        ∈ combinedItems st L) := by
  refine ⟨?_, ?_, ?_, ?_, ?_⟩
  · unfold getCombinedActivity
    rw [if_neg h]
  · simp only [combinedItems, List.length_append, List.length_map]
  · intro p hp
    unfold combinedItems
    exact List.mem_append_left _
      (List.mem_append_left _ (List.mem_map_of_mem _ hp))
  · intro t ht
    unfold combinedItems
    exact List.mem_append_left _
      (List.mem_append_right _ (List.mem_map_of_mem _ ht))
  · intro l hl
    unfold combinedItems
    exact List.mem_append_right _ (List.mem_map_of_mem _ hl)

/-- Witness for the amended C1 on a state with one trade. -/
theorem getCombinedActivity_complete_witness :
    allBotIds c1TradeState 10 ≠ [] ∧
    (combinedItems c1TradeState 10).length
      = (recentPosts c1TradeState 10).length
        + (recentTrades c1TradeState 10).length
        + (recentLogs c1TradeState 10).length :=
  ⟨by decide, (getCombinedActivity_complete c1TradeState 10 (by decide)).2.1⟩

/-! ## Identifier-uniqueness lemmas. -/

theorem hexDigit_inj_lt10 : ∀ a : Nat, a < 10 → ∀ b : Nat, b < 10 →
    hexDigit a = hexDigit b → a = b := by
  decide

theorem hexDigit_ne_zero_char : ∀ d : Nat, d < 10 → d ≠ 0 →
    hexDigit d ≠ '0' := by
  decide

theorem map_hexDigit_inj : ∀ L1 L2 : List Nat, (∀ d ∈ L1, d < 10) →
    (∀ d ∈ L2, d < 10) → L1.map hexDigit = L2.map hexDigit → L1 = L2 := by
  intro L1
  induction L1 with
  | nil =>
    intro L2 _ _ h
    cases L2 with
    | nil => rfl
    | cons b t2 => simp at h
  | cons a t ih =>
    intro L2 h1 h2 h
    cases L2 with
    | nil => simp at h
    | cons b t2 =>
      simp only [List.map_cons, List.cons.injEq] at h
      have hab : a = b :=
        hexDigit_inj_lt10 a (h1 a (by simp)) b (h2 b (by simp)) h.1
      rw [hab, ih t2 (fun d hd => h1 d (List.mem_cons_of_mem a hd))
        (fun d hd => h2 d (List.mem_cons_of_mem b hd)) h.2]

theorem natToStr_injective : ∀ m n : Nat, natToStr m = natToStr n → m = n := by
  intro m n h
  simp only [natToStr] at h
  injection h with h
  by_cases hm : m = 0 <;> by_cases hn : n = 0
  · rw [hm, hn]
  · exfalso
    rw [if_pos hm, if_neg hn] at h
    cases hlast : (digitsLE 10 n).getLast? with
    | none =>
      exact digitsLE_ne_nil (by omega) hn (List.getLast?_eq_none_iff.mp hlast)
    | some d =>
      have hd0 : d ≠ 0 := by
        intro h0
        exact digitsLE_getLast?_ne (by omega) n hn (h0 ▸ hlast)
      have hdm : d ∈ digitsLE 10 n := List.mem_of_mem_getLast? hlast
      have hd10 : d < 10 := digitsLE_lt (by omega) n d hdm
      have hh := congrArg List.head? h
      rw [List.head?_map, List.head?_reverse, hlast] at hh
      simp only [List.head?_cons, Option.map_some'] at hh
      exact hexDigit_ne_zero_char d hd10 hd0 (Option.some.inj hh).symm
  · exfalso
    rw [if_neg hm, if_pos hn] at h
    cases hlast : (digitsLE 10 m).getLast? with
    | none =>
      exact digitsLE_ne_nil (by omega) hm (List.getLast?_eq_none_iff.mp hlast)
    | some d =>
      have hd0 : d ≠ 0 := by
        intro h0
        exact digitsLE_getLast?_ne (by omega) m hm (h0 ▸ hlast)
      have hdm : d ∈ digitsLE 10 m := List.mem_of_mem_getLast? hlast
      have hd10 : d < 10 := digitsLE_lt (by omega) m d hdm
      have hh := congrArg List.head? h
      rw [List.head?_map, List.head?_reverse, hlast] at hh
      simp only [List.head?_cons, Option.map_some'] at hh
      exact hexDigit_ne_zero_char d hd10 hd0 (Option.some.inj hh)
  · rw [if_neg hm, if_neg hn] at h
    have hrev : (digitsLE 10 m).reverse = (digitsLE 10 n).reverse :=
      map_hexDigit_inj _ _
        (fun d hd => digitsLE_lt (by omega) m d (List.mem_reverse.mp hd))
        (fun d hd => digitsLE_lt (by omega) n d (List.mem_reverse.mp hd)) h
    calc m = valBE 10 ((digitsLE 10 m).reverse) :=
          (valBE_digitsLE (by omega) m).symm
      _ = valBE 10 ((digitsLE 10 n).reverse) := by rw [hrev]
      _ = n := valBE_digitsLE (by omega) n

theorem str_append_left_cancel (p s t : String) (h : p ++ s = p ++ t) :
    s = t := by
  have hd := congrArg String.data h
  rw [String.data_append, String.data_append] at hd
  have hst := List.append_cancel_left hd
  cases s
  cases t
  exact congrArg String.mk hst

theorem tweet_id_ne_trade_id (s t : String) :
    "tweet-" ++ s ≠ "trade-" ++ t := by
  intro h
  have hd := congrArg String.data h
  rw [String.data_append, String.data_append] at hd
  have h1 : "tweet-".data = ['t', 'w', 'e', 'e', 't', '-'] := rfl
  have h2 : "trade-".data = ['t', 'r', 'a', 'd', 'e', '-'] := rfl
  rw [h1, h2] at hd
  injection hd with _ hd1
  injection hd1 with hw _
  exact absurd hw (by decide)

theorem tweet_id_ne_log_id (s t : String) :
    "tweet-" ++ s ≠ "log-" ++ t := by
  intro h
  have hd := congrArg String.data h
  rw [String.data_append, String.data_append] at hd
  have h1 : "tweet-".data = ['t', 'w', 'e', 'e', 't', '-'] := rfl
  have h2 : "log-".data = ['l', 'o', 'g', '-'] := rfl
  rw [h1, h2] at hd
  injection hd with hw _
  exact absurd hw (by decide)

theorem trade_id_ne_log_id (s t : String) :
    "trade-" ++ s ≠ "log-" ++ t := by
  intro h
  have hd := congrArg String.data h
  rw [String.data_append, String.data_append] at hd
  have h1 : "trade-".data = ['t', 'r', 'a', 'd', 'e', '-'] := rfl
  have h2 : "log-".data = ['l', 'o', 'g', '-'] := rfl
  rw [h1, h2] at hd
  injection hd with hw _
  exact absurd hw (by decide)

theorem take_sort_map_nodup {α β : Type} (k : α → Nat) (f : α → β)
    (l : List α) (L : Nat) (h : (l.map f).Nodup) :
    (((sortDescBy k l).take L).map f).Nodup := by
  have hperm : ((sortDescBy k l).map f).Perm (l.map f) :=
    (sortDescBy_perm k l).map f
  have hnod : ((sortDescBy k l).map f).Nodup := hperm.nodup_iff.mpr h
  exact List.Nodup.sublist ((List.take_sublist L _).map f) hnod

/-- C2 counterexample: the claim says an audit log yields id
`"system-" ++ sourceId` (its type tag is `"system"`), but the code builds
`` `log-${log.id}` ``: on a state whose only record is the audit log with id
5, the emitted item has type `"system"` yet id `"log-5"`, not `"system-5"`. -/
theorem combined_log_id_not_system :
    (getCombinedActivity c2State 10).map (fun it => it.id) = ["log-5"] ∧
    (∀ it ∈ getCombinedActivity c2State 10,
      it.type = "system" ∧ it.id ≠ "system-" ++ natToStr 5) := by
  decide

/-- C2 (amended): provided each source table has pairwise-distinct record
ids, every returned item's id is unique across the whole returned sequence;
ids are formed as `"tweet-" ++ n` for posts, `"trade-" ++ n` for trades, and
— for audit logs, whose type tag is `"system"` — the literal prefix is
`"log-"`, not the type tag. -/
theorem getCombinedActivity_ids_unique (st : Storage) (L : Nat)
    (hp : (st.botPosts.map (fun p => p.id)).Nodup)
    (ht : (st.trades.map (fun t => t.id)).Nodup)
    (hl : (st.auditLogs.map (fun l => l.id)).Nodup) :
    ((getCombinedActivity st L).map (fun it => it.id)).Nodup ∧
    (∀ p ∈ recentPosts st L,
      (postToItem (botFind st L) (userFind st L) (pfpFind st L) p).id
        = "tweet-" ++ natToStr p.id) ∧
    (∀ t ∈ recentTrades st L,
      (tradeToItem (botFind st L) (userFind st L) (pfpFind st L) t).id
        = "trade-" ++ natToStr t.id) ∧
    (∀ l ∈ recentLogs st L,
      (logToItem (botFind st L) (userFind st L) (pfpFind st L) l).id
        = "log-" ++ natToStr l.id) := by
  have hpost : ((recentPosts st L).map (fun p => p.id)).Nodup := by
    unfold recentPosts
    exact take_sort_map_nodup _ _ _ _ hp
  have htrade : ((recentTrades st L).map (fun t => t.id)).Nodup := by
    unfold recentTrades
    exact take_sort_map_nodup _ _ _ _ ht
  have hlog : ((recentLogs st L).map (fun l => l.id)).Nodup := by
    unfold recentLogs
    exact take_sort_map_nodup _ _ _ _ hl
  have injT : Function.Injective (fun n : Nat => "tweet-" ++ natToStr n) :=
    fun a b hab => natToStr_injective a b (str_append_left_cancel "tweet-" _ _ hab)
  have injR : Function.Injective (fun n : Nat => "trade-" ++ natToStr n) :=
    fun a b hab => natToStr_injective a b (str_append_left_cancel "trade-" _ _ hab)
  have injL : Function.Injective (fun n : Nat => "log-" ++ natToStr n) :=
    fun a b hab => natToStr_injective a b (str_append_left_cancel "log-" _ _ hab)
  have hA := List.Nodup.map injT hpost
  have hB := List.Nodup.map injR htrade
  have hC := List.Nodup.map injL hlog
  have dAB : List.Disjoint
      (((recentPosts st L).map (fun p => p.id)).map
        (fun n => "tweet-" ++ natToStr n))
      (((recentTrades st L).map (fun t => t.id)).map
        (fun n => "trade-" ++ natToStr n)) := by
    intro x hxA hxB
    rcases List.mem_map.mp hxA with ⟨a, _, ha⟩
    rcases List.mem_map.mp hxB with ⟨b, _, hb⟩
    exact tweet_id_ne_trade_id (natToStr a) (natToStr b) (ha.trans hb.symm)
  have dAC : List.Disjoint
      (((recentPosts st L).map (fun p => p.id)).map
        (fun n => "tweet-" ++ natToStr n))
      (((recentLogs st L).map (fun l => l.id)).map
        (fun n => "log-" ++ natToStr n)) := by
    intro x hxA hxB
    rcases List.mem_map.mp hxA with ⟨a, _, ha⟩
    rcases List.mem_map.mp hxB with ⟨b, _, hb⟩
    exact tweet_id_ne_log_id (natToStr a) (natToStr b) (ha.trans hb.symm)
  have dBC : List.Disjoint
      (((recentTrades st L).map (fun t => t.id)).map
        (fun n => "trade-" ++ natToStr n))
      (((recentLogs st L).map (fun l => l.id)).map
        (fun n => "log-" ++ natToStr n)) := by
    intro x hxA hxB
    rcases List.mem_map.mp hxA with ⟨a, _, ha⟩
    rcases List.mem_map.mp hxB with ⟨b, _, hb⟩
    exact trade_id_ne_log_id (natToStr a) (natToStr b) (ha.trans hb.symm)
  have heq : (combinedItems st L).map (fun it => it.id)
      = ((recentPosts st L).map (fun p => p.id)).map
          (fun n => "tweet-" ++ natToStr n)
        ++ ((recentTrades st L).map (fun t => t.id)).map
          (fun n => "trade-" ++ natToStr n)
        ++ ((recentLogs st L).map (fun l => l.id)).map
          (fun n => "log-" ++ natToStr n) := by
    unfold combinedItems
    simp only [List.map_append, List.map_map]
    rfl
  have hcomb : ((combinedItems st L).map (fun it => it.id)).Nodup := by
    rw [heq]
    exact List.nodup_append.mpr
      ⟨List.nodup_append.mpr ⟨hA, hB, dAB⟩, hC,
        List.disjoint_append_left.mpr ⟨dAC, dBC⟩⟩
  refine ⟨?_, fun p _ => rfl, fun t _ => rfl, fun l _ => rfl⟩
  unfold getCombinedActivity
  by_cases hids : allBotIds st L = []
  · rw [if_pos hids]
    simp
  · rw [if_neg hids]
    exact take_sort_map_nodup itemKey (fun it => it.id) (combinedItems st L)
      L hcomb

/-- Witness for the amended C2: distinct ids on a concrete state. -/
theorem getCombinedActivity_ids_unique_witness :
    ((getCombinedActivity c2State 10).map (fun it => it.id)).Nodup :=
  (getCombinedActivity_ids_unique c2State 10 (by decide) (by decide)
    (by decide)).1

end Moltcook
